import Mathlib

/-
Verification development for the Py-obfuscator repository (src/obf.py).

The file shallowly embeds the parts of PyObfuscator that the specification
talks about: the layer-sequence construction and repair step of
PyObfuscator.obfuscate, the constructor check on the recursion count, the
the import ledger (extraction sort and reinjection), the renaming
pass (_obfuscate_vars together with _generate_random_name), the structural
stripper (_remove_comments_and_docstrings), the XOR key-discovery layer
(_layer_2 and the brute-force loop of the loader it generates), and the
compiled-form layer (_layer_4) with its build-time self-check.

Python string and byte payloads are modelled as Lean String and List Nat;
the abstract syntax tree of the host language is modelled by the small
inductive types PyExpr and Stmt, covering exactly the node shapes the
source inspects (constant-expression statements, name references,
assignments, function and class definitions).  Randomness is made explicit:
every random draw of the source (shuffled layer order, XOR key, sentinel
bytes and positions, identifier draws) becomes an argument of the
corresponding definition.
-/

/-- The four obfuscation layers of PyObfuscator (src/obf.py lines 121-126):
the list `[self._layer_1, self._layer_2, self._layer_3, self._layer_4]`
repeated `recursion` times. -/
inductive Layer where
  | l1
  | l2
  | l3
  | l4
deriving DecidableEq

/-- src/obf.py lines 121-126: `[l1, l2, l3, l4] * recursion`, the layer list
before the random shuffle. -/
def baseLayers (r : Nat) : List Layer :=
  (List.replicate r [Layer.l1, Layer.l2, Layer.l3, Layer.l4]).flatten

/-- Model of the Python assignment `layers[-1] = x`: replace the final
element of the list. -/
def setLast (x : Layer) (l : List Layer) : List Layer :=
  l.dropLast ++ [x]

/-- Model of the repair loop body (src/obf.py lines 131-135): walk to the
first element different from layer 3, write layer 3 at its index and write
the old element at the last index (which held layer 3, since the loop only
runs when the shuffled list ends in layer 3). -/
def repairGo : List Layer → List Layer
  | [] => []
  | a :: rest =>
    if a = Layer.l3 then a :: repairGo rest
    else Layer.l3 :: setLast a rest

/-- src/obf.py lines 129-135: if the shuffled layer list ends in layer 3,
swap that last element with the first element that is not layer 3. -/
def repair (layers : List Layer) : List Layer :=
  if layers.getLast? = some Layer.l3 then repairGo layers else layers

/-- State recorded by PyObfuscator.__init__ when construction succeeds
(src/obf.py lines 79-94). -/
structure ObfConfig where
  code : String
  includeImports : Bool
  recursion : Int

/-- src/obf.py lines 79-94: the constructor stores the code and options but
raises ValueError («Recursion length cannot be less than 1») when the
recursion count is below 1, before any transform can run. -/
def initPyObfuscator (code : String) (includeImports : Bool) (recursion : Int) :
    Except String ObfConfig :=
  if recursion < 1 then Except.error "Recursion length cannot be less than 1"
  else Except.ok ⟨code, includeImports, recursion⟩

/-- Import records as stored in self._imports: `(module, symbol)` where the
module component is absent for a plain `import symbol` statement
(src/obf.py lines 191-198). -/
abbrev ImportRecord := Option String × String

/-- src/obf.py line 205: the sort key
`len(x[1]) + len(x[0]) if x[0] is not None else 0`.
Python parses the conditional expression with the lowest precedence, so the
whole sum is conditional: a record without a module component gets key 0,
not the length of its symbol. -/
def importSortKey : ImportRecord → Nat
  | (some m, s) => s.length + m.length
  | (none, _) => 0

/-- Stable insertion used to model `list.sort(reverse=True, key=...)`:
an element moves ahead only of elements with strictly smaller key, so
elements with equal keys keep their original relative order, as Python
guarantees. -/
def insertDescStable (key : ImportRecord → Nat) (a : ImportRecord) :
    List ImportRecord → List ImportRecord
  | [] => [a]
  | b :: bs => if key b < key a then a :: b :: bs else b :: insertDescStable key a bs

/-- Stable descending sort by key, modelling `sort(reverse=True, key=...)`. -/
def pySortDesc (key : ImportRecord → Nat) (l : List ImportRecord) : List ImportRecord :=
  l.foldl (fun acc a => insertDescStable key a acc) []

/-- src/obf.py line 205: the sort performed at the end of _save_imports. -/
def saveImportsSort (imps : List ImportRecord) : List ImportRecord :=
  pySortDesc importSortKey imps

/-- src/obf.py lines 215-219: one reconstructed import statement line. -/
def renderImport : ImportRecord → String
  | (some m, s) => "from " ++ m ++ " import " ++ s ++ "\n"
  | (none, s) => "import " ++ s ++ "\n"

/-- src/obf.py lines 207-220 (_prepend_imports): for each record in ledger
order, prepend its statement line to the current code text. -/
def prependImports (imps : List ImportRecord) (code : String) : String :=
  imps.foldl (fun acc r => renderImport r ++ acc) code

/-- src/obf.py lines 422-436 (_generate_random_name): return the cached
synthetic name when one exists, otherwise record and return the fresh
random draw.  The draw (`random.choice(self._valid_identifiers)`) is passed
in explicitly. -/
def generateRandomName (draw : String) (name : String)
    (aliases : List (String × String)) : String × List (String × String) :=
  match aliases.lookup name with
  | some existing => (existing, aliases)
  | none => (draw, (name, draw) :: aliases)

/-- src/obf.py lines 404-409 (Transformer.rename): protected names (host
builtins and recorded import symbols) are returned unchanged, every other
name goes through _generate_random_name.  In the source this method is
defined but never invoked by any visitor. -/
def renameHelper (builtinNames importSymbols : List String) (draw name : String)
    (aliases : List (String × String)) : String × List (String × String) :=
  if name ∈ builtinNames ∨ name ∈ importSymbols then (name, aliases)
  else generateRandomName draw name aliases

/-- src/obf.py lines 411-415 (Transformer.visit_Name): substitute a name
only when it is already a key of the alias table; otherwise leave it
unchanged.  No branch of this visitor writes to the alias table. -/
def visitName (aliases : List (String × String)) (id : String) : String :=
  match aliases.lookup id with
  | some synthetic => synthetic
  | none => id

/-- Expressions of the host language, restricted to the node shapes
inspected by src/obf.py: constants, name references and binary
operations. -/
inductive PyExpr where
  | constE (v : String)
  | nameRef (id : String)
  | binop (a b : PyExpr)

/-- Statements of the host language, restricted to the node shapes
inspected by src/obf.py: expression statements, assignments (whose target
is a Name node), function definitions (plain or async), class definitions
and the pass statement. -/
inductive Stmt where
  | exprStmt (e : PyExpr)
  | assign (target : String) (value : PyExpr)
  | funcDef (name : String) (isAsync : Bool) (body : List Stmt)
  | classDef (name : String) (body : List Stmt)
  | passStmt

/-- The recursive expression walk of ast.NodeTransformer as used by
_obfuscate_vars: every Name node goes through visit_Name. -/
def transformExpr (aliases : List (String × String)) : PyExpr → PyExpr
  | .constE v => .constE v
  | .nameRef id => .nameRef (visitName aliases id)
  | .binop a b => .binop (transformExpr aliases a) (transformExpr aliases b)

mutual

/-- The statement walk of ast.NodeTransformer as used by _obfuscate_vars
(src/obf.py lines 417-420): Name nodes anywhere in the tree, including
assignment targets, are passed through visit_Name; structural names of
function and class definitions are plain string attributes, not Name
nodes, and are untouched. -/
def transformStmt (aliases : List (String × String)) : Stmt → Stmt
  | .exprStmt e => .exprStmt (transformExpr aliases e)
  | .assign t v => .assign (visitName aliases t) (transformExpr aliases v)
  | .funcDef n x b => .funcDef n x (transformStmts aliases b)
  | .classDef n b => .classDef n (transformStmts aliases b)
  | .passStmt => .passStmt

/-- Statement-list companion of transformStmt. -/
def transformStmts (aliases : List (String × String)) : List Stmt → List Stmt
  | [] => []
  | s :: ss => transformStmt aliases s :: transformStmts aliases ss

end

/-- src/obf.py lines 389-420 (_obfuscate_vars): parse the code, run the
Transformer over it and unparse.  The visitor reads the alias table but has
no write path to it (visit_Name never calls rename, and rename is the only
caller of _generate_random_name), so the table is returned unchanged. -/
def obfuscateVars (aliases : List (String × String)) (body : List Stmt) :
    List Stmt × List (String × String) :=
  (transformStmts aliases body, aliases)

/-- Condition of src/obf.py lines 165, 170, 175, 179: the statement is an
ast.Expr whose value is an ast.Constant. -/
def isDocExpr : Stmt → Bool
  | .exprStmt (.constE _) => true
  | _ => false

/-- src/obf.py lines 160-162: the placeholder docstring inserted in front
of the module body. -/
def placeholderDoc : Stmt :=
  .exprStmt (.constE "Obfuscated Python Code")

/-- src/obf.py lines 169-171 and 178-180: inside a function body, every
constant-expression statement becomes a pass statement. -/
def cleanFuncBody (body : List Stmt) : List Stmt :=
  body.map (fun st => if isDocExpr st then Stmt.passStmt else st)

/-- src/obf.py lines 174-180: inside a class body, every constant-expression
statement becomes a pass statement, and method bodies are cleaned one level
deeper. -/
def cleanClassBody (body : List Stmt) : List Stmt :=
  body.map (fun st =>
    if isDocExpr st then Stmt.passStmt
    else
      match st with
      | .funcDef n x fb => .funcDef n x (cleanFuncBody fb)
      | other => other)

/-- One iteration of the loop at src/obf.py lines 163-180.  The loop
enumerates a snapshot of `tree.body[1:]` (the original module body before
the placeholder was inserted), so iteration k examines snapshot element k,
which sits at position k+1 of the mutated body list.  A constant-expression
statement causes the write `tree.body[index] = ast.Pass()` at position k
(one short of where the statement lives); a function or class definition is
mutated in place, that is, at position k+1. -/
def stripStep (snapshot : List Stmt) (body : List Stmt) (k : Nat) : List Stmt :=
  match snapshot.get? k with
  | none => body
  | some node =>
    if isDocExpr node then body.set k Stmt.passStmt
    else
      match node with
      | .funcDef n x fb => body.set (k + 1) (.funcDef n x (cleanFuncBody fb))
      | .classDef n cb => body.set (k + 1) (.classDef n (cleanClassBody cb))
      | _ => body

/-- src/obf.py lines 147-181 (_remove_comments_and_docstrings) at the level
of the module body: insert the placeholder at position 0, then run the loop
over the snapshot of the original body. -/
def removeCommentsAndDocstrings (body : List Stmt) : List Stmt :=
  (List.range body.length).foldl (stripStep body) (placeholderDoc :: body)

/-- Model of Python `list.insert(i, x)`: the index is clamped to the list
length. -/
def pyInsert (i : Nat) (x : Nat) (l : List Nat) : List Nat :=
  l.take i ++ x :: l.drop i

/-- src/obf.py lines 291-300 (_layer_2, build side): XOR every byte of the
compressed payload with the key, then insert the two sentinel bytes, first
`in_byte` at `in_loc`, then `re_byte = in_byte XOR key` at `re_loc`.  Both
positions were computed before either insertion. -/
def layer2Encode (key inByte inLoc reLoc : Nat) (payload : List Nat) : List Nat :=
  let encrypted := payload.map (fun x => key ^^^ x)
  let reByte := inByte ^^^ key
  pyInsert reLoc reByte (pyInsert inLoc inByte encrypted)

/-- src/obf.py lines 286-287 (generated loader): `for i in range(1, 100)`
tests candidate keys 1..99 in order against the sentinel equality
`encrypted[in_loc] ^ i == encrypted[re_loc]` and stops at the first
match. -/
def layer2FindKey (encrypted : List Nat) (inLoc reLoc : Nat) : Option Nat :=
  (List.range' 1 99).find? (fun i => encrypted.getD inLoc 0 ^^^ i == encrypted.getD reLoc 0)

/-- src/obf.py line 288 (generated loader): strip the two sentinel
positions, `encrypted[:in_loc] + encrypted[in_loc+1:re_loc] +
encrypted[re_loc+1:]`. -/
def layer2Strip (encrypted : List Nat) (inLoc reLoc : Nat) : List Nat :=
  encrypted.take inLoc ++ ((encrypted.take reLoc).drop (inLoc + 1)) ++ encrypted.drop (reLoc + 1)

/-- src/obf.py lines 286-289 (generated loader): if the brute-force loop
finds a candidate key, strip the sentinels and XOR the remaining bytes with
that key, recovering (what should be) the compressed payload; if the loop
finds nothing, the loader falls through and the payload is never
evaluated. -/
def layer2Decode (encrypted : List Nat) (inLoc reLoc : Nat) : Option (List Nat) :=
  match layer2FindKey encrypted inLoc reLoc with
  | none => none
  | some i => some ((layer2Strip encrypted inLoc reLoc).map (fun x => x ^^^ i))

/-- src/obf.py lines 367-370 and 379: the loader text of _layer_4 with the
encoded literal substituted for the placeholder. -/
def layer4Template (encoded : String) : String :=
  "\nimport marshal\nexec(marshal.loads(__import__(\x27zlib\x27).decompress(__import__(\x27base64\x27).b64decode(b\x27"
    ++ encoded ++ "\x27))))\n    "

/-- src/obf.py lines 350-387 (_layer_4): encode the current code (compile,
marshal, compress, base64; any failure raises), emit the loader, then
independently decode the embedded literal and assert the result is a code
object; a failed self-check raises RuntimeError before the method returns.
The host-library codec is abstracted into the `enc` function and the
decode-and-assert step into the `chk` predicate. -/
def layer4Run (enc : String → Option String) (chk : String → Bool)
    (code : String) : Except String String :=
  match enc code with
  | none => Except.error "Error during obfuscation in layer 4"
  | some encoded =>
    if chk encoded then Except.ok (layer4Template encoded)
    else Except.error "Validation failed for layer 4"

/-- src/obf.py lines 138-139: apply the layer list in order to the current
code; an exception raised by any layer aborts the whole run, so obfuscate
returns nothing. -/
def runLayers : List (String → Except String String) → String → Except String String
  | [], code => Except.ok code
  | f :: fs, code =>
    match f code with
    | Except.ok next => runLayers fs next
    | Except.error e => Except.error e

/-- C9: for every recursion count below 1 the constructor rejects the run
with a ValueError before any transform can execute; no obfuscator state is
produced, so the stored program text is never modified and no output is
produced. -/
theorem init_rejects_low_recursion (code : String) (inc : Bool) (r : Int)
    (h : r < 1) :
    initPyObfuscator code inc r = Except.error "Recursion length cannot be less than 1" := by
  simp [initPyObfuscator, h]

/-- Witness for init_rejects_low_recursion at the spec example recursion = 0. -/
theorem init_rejects_low_recursion_witness :
    (0 : Int) < 1 ∧
      initPyObfuscator "result = 2 + 2" false 0
        = Except.error "Recursion length cannot be less than 1" :=
  ⟨by decide, init_rejects_low_recursion "result = 2 + 2" false 0 (by decide)⟩

/-- C6 (code bug evaluation): the sort key of _save_imports evaluates to 0
for every record without a module component, because the conditional
expression in the lambda binds the whole sum.  On the ledger of
«import os» followed by «import sys» the stable descending sort therefore
keeps collection order, with the shorter symbol os first, while the claim
requires the longer symbol sys to come first. -/
theorem save_imports_plain_records_keep_collection_order :
    saveImportsSort [(none, "os"), (none, "sys")] = [(none, "os"), (none, "sys")] ∧
      importSortKey (none, "sys") = 0 ∧ importSortKey (none, "os") = 0 :=
  ⟨rfl, rfl, rfl⟩

/-- C7: prepending one statement line per record in ledger order makes the
last ledger record physically first in the output text; equivalently the
result is the fold of the reversed ledger over the original text, and for a
two-record ledger the second record renders first while the first record
renders immediately before the original text. -/
theorem prepend_imports_reverses_ledger_order :
    (∀ (imps : List ImportRecord) (code : String),
        prependImports imps code
          = imps.reverse.foldr (fun r acc => renderImport r ++ acc) code) ∧
      ∀ (a b : ImportRecord) (code : String),
        prependImports [a, b] code = renderImport b ++ (renderImport a ++ code) := by
  constructor
  · intro imps code
    rw [prependImports, List.foldr_reverse]
  · intro a b code
    rfl

/-- C2 (code bug evaluation): visit_Name substitutes a name only when the
name is already a key of the alias table, and no code path of the renaming
pass writes to the table (rename, the only caller of _generate_random_name,
is never invoked).  Since every run starts with an empty table, running the
pass on a body containing the non-protected identifier fire (neither a host
builtin nor an import symbol) leaves the identifier unchanged and the table
empty, while the claim requires an alias entry to be created and the
synthetic name substituted. -/
theorem obfuscate_vars_never_creates_alias :
    obfuscateVars [] [Stmt.assign "fire" (PyExpr.constE "1"), Stmt.exprStmt (PyExpr.nameRef "fire")]
      = ([Stmt.assign "fire" (PyExpr.constE "1"), Stmt.exprStmt (PyExpr.nameRef "fire")], []) :=
  rfl

/-- C3 (code bug evaluation): on the module body «x = 1» followed by a
standalone string literal, the stripper writes the pass statement at the
index one short of the literal (the loop enumerates tree.body[1:] but
assigns through the unshifted index), so the assignment preceding the
literal is destroyed and the documentation literal itself survives —
the claim requires exactly the opposite. -/
theorem strip_clobbers_preceding_statement :
    removeCommentsAndDocstrings
        [Stmt.assign "x" (PyExpr.constE "1"), Stmt.exprStmt (PyExpr.constE "doc")]
      = [placeholderDoc, Stmt.passStmt, Stmt.exprStmt (PyExpr.constE "doc")] :=
  rfl

/-- C4 (code bug evaluation): the key is drawn from randint(1, 100), both
ends inclusive, but the generated loader only tests candidates 1..99.  With
key 100, sentinel byte 7 at position 0 and sentinel byte 99 = 7 XOR 100 at
position 2 (positions the build step can draw, with in_loc strictly below
re_loc), the sentinel equality holds for no tested candidate, the
brute-force loop finds no key, and the loader never recovers the
payload. -/
theorem layer2_key100_never_found :
    layer2Decode (layer2Encode 100 7 0 2 [1, 2, 3, 4]) 0 2 = none := by
  decide

/-- C1 (code bug evaluation): the build step of the key-discovery layer can
draw coincident sentinel positions (re_loc = randint(in_loc, ...) may equal
in_loc).  Then the second insertion lands in front of the first sentinel,
both recorded positions read the same byte, the tested equality
b XOR i = b holds for no candidate i in 1..99, and the loader never
reconstructs the compressed payload — so evaluating the transform output
cannot reproduce the original program. -/
theorem layer2_coincident_sentinels_lose_payload :
    layer2Decode (layer2Encode 5 7 1 1 [1, 2, 3]) 1 1 = none := by
  decide

/-- C10 counterexample: the identifier draws of _generate_random_name are
independent uniform choices with no collision check, so two distinct
original names can receive the same synthetic name.  The character U+0100
is a valid host identifier and lies in the precomputed pool (range 256 to
0x24976); drawing it for both x and y makes the alias table map both
originals to the same replacement. -/
theorem generate_random_name_collision :
    ("x" : String) ≠ "y" ∧
      (generateRandomName "Ā" "x" []).1
        = (generateRandomName "Ā" "y" (generateRandomName "Ā" "x" []).2).1 :=
  ⟨by decide, rfl⟩

/-- C10 amended: within one run the assignment is idempotent per name — once
an original name has been assigned a synthetic name, every later request
for the same name returns the cached synthetic name and leaves the table
unchanged, whatever the later random draw is; distinct original names,
however, receive independent draws and may collide. -/
theorem generate_random_name_cached (draw1 draw2 name : String)
    (aliases : List (String × String)) (h : aliases.lookup name = none) :
    generateRandomName draw2 name (generateRandomName draw1 name aliases).2
      = ((generateRandomName draw1 name aliases).1,
         (generateRandomName draw1 name aliases).2) := by
  simp [generateRandomName, h, List.lookup]

/-- Witness for generate_random_name_cached: the name x is fresh in the
empty table, and the second call returns the first draw unchanged. -/
theorem generate_random_name_cached_witness :
    ([] : List (String × String)).lookup "x" = none ∧
      generateRandomName "b" "x" (generateRandomName "a" "x" []).2
        = ((generateRandomName "a" "x" []).1, (generateRandomName "a" "x" []).2) :=
  ⟨rfl, generate_random_name_cached "a" "b" "x" [] rfl⟩

/-- Replacing the last element of a concatenation with a final singleton. -/
theorem setLast_concat (M : List Layer) (z x : Layer) :
    setLast x (M ++ [z]) = M ++ [x] := by
  simp [setLast, List.dropLast_concat]

/-- The repair walk permutes the layer list whenever it runs on a list
ending in layer 3. -/
theorem repairGo_perm (l : List Layer) (h : l.getLast? = some Layer.l3) :
    (repairGo l).Perm l := by
  induction l with
  | nil => simp at h
  | cons a rest ih =>
    by_cases ha : a = Layer.l3
    · subst ha
      cases rest with
      | nil => simp [repairGo]
      | cons b bs =>
        have h2 : (b :: bs).getLast? = some Layer.l3 := by
          rw [← @List.getLast?_cons_cons _ Layer.l3 _ _]
          exact h
        simpa [repairGo] using (ih h2).cons Layer.l3
    · have hne : rest ≠ [] := by
        intro hr
        subst hr
        simp only [List.getLast?_singleton, Option.some.injEq] at h
        exact ha h
      have hlastr : rest.getLast? = some Layer.l3 := by
        cases rest with
        | nil => exact absurd rfl hne
        | cons b bs =>
          rw [← @List.getLast?_cons_cons _ a _ _]
          exact h
      have hsplit : rest.dropLast ++ [Layer.l3] = rest := by
        have hg : rest.getLast hne = Layer.l3 := by
          rw [List.getLast?_eq_getLast rest hne] at hlastr
          exact Option.some.inj hlastr
        rw [← hg]
        exact List.dropLast_append_getLast hne
      have hgo : repairGo (a :: rest) = Layer.l3 :: (rest.dropLast ++ [a]) := by
        simp [repairGo, ha, setLast]
      have p1 : (rest.dropLast ++ [a]).Perm (a :: rest.dropLast) :=
        @List.perm_append_comm _ rest.dropLast [a]
      have p2 : (Layer.l3 :: (rest.dropLast ++ [a])).Perm (Layer.l3 :: a :: rest.dropLast) :=
        p1.cons Layer.l3
      have p3 : (Layer.l3 :: a :: rest.dropLast).Perm (a :: Layer.l3 :: rest.dropLast) :=
        List.Perm.swap a Layer.l3 rest.dropLast
      have p4 : (Layer.l3 :: rest.dropLast).Perm (rest.dropLast ++ [Layer.l3]) := by
        simpa using @List.perm_append_comm _ [Layer.l3] rest.dropLast
      have pfinal : (Layer.l3 :: (rest.dropLast ++ [a])).Perm
          (a :: (rest.dropLast ++ [Layer.l3])) := (p2.trans p3).trans (p4.cons a)
      rw [hsplit] at pfinal
      rw [hgo]
      exact pfinal

/-- After the repair walk runs on a list that ends in layer 3 but contains
some other layer, the final element is no longer layer 3. -/
theorem repairGo_getLast_ne (l : List Layer) (h : l.getLast? = some Layer.l3)
    (hex : ∃ x, x ∈ l ∧ x ≠ Layer.l3) :
    (repairGo l).getLast? ≠ some Layer.l3 := by
  induction l with
  | nil => simp at h
  | cons a rest ih =>
    by_cases ha : a = Layer.l3
    · subst ha
      obtain ⟨x, hxmem, hx⟩ := hex
      have hxrest : x ∈ rest := by
        rcases List.mem_cons.mp hxmem with hcase | hcase
        · exact absurd hcase hx
        · exact hcase
      cases rest with
      | nil => simp at hxrest
      | cons b bs =>
        have h2 : (b :: bs).getLast? = some Layer.l3 := by
          rw [← @List.getLast?_cons_cons _ Layer.l3 _ _]
          exact h
        have ihr := ih h2 ⟨x, hxrest, hx⟩
        have hnonnil : repairGo (b :: bs) ≠ [] := by
          intro hcon
          have hl := (repairGo_perm (b :: bs) h2).length_eq
          rw [hcon] at hl
          simp at hl
        have hgo : repairGo (Layer.l3 :: b :: bs) = Layer.l3 :: repairGo (b :: bs) := by
          simp [repairGo]
        rw [hgo]
        cases hrp : repairGo (b :: bs) with
        | nil => exact absurd hrp hnonnil
        | cons c cs =>
          rw [List.getLast?_cons_cons]
          rw [hrp] at ihr
          exact ihr
    · have hgo : repairGo (a :: rest) = (Layer.l3 :: rest.dropLast) ++ [a] := by
        simp [repairGo, ha, setLast]
      rw [hgo, List.getLast?_concat]
      intro hcon
      exact ha (Option.some.inj hcon)

/-- Each of the four layers occurs exactly r times in the unshuffled layer
list of a run with recursion count r. -/
theorem count_baseLayers (r : Nat) (x : Layer) : (baseLayers r).count x = r := by
  induction r with
  | zero => rfl
  | succ n ih =>
    have hstep : baseLayers (n + 1)
        = [Layer.l1, Layer.l2, Layer.l3, Layer.l4] ++ baseLayers n := by
      simp [baseLayers, List.replicate_succ]
    have hone : ([Layer.l1, Layer.l2, Layer.l3, Layer.l4] : List Layer).count x = 1 := by
      cases x <;> rfl
    rw [hstep, List.count_append, ih, hone]
    omega

/-- C5: for every layer sequence generated for recursion count r (a random
permutation of the group of four transforms repeated r times), the repaired
sequence is a permutation of the pre-repair sequence, its last element is
never the address-encoding transform (layer 3), and it still contains
exactly r instances of each of the four transforms. -/
theorem repair_sequence_valid (r : Nat) (hr : 1 ≤ r) (layers : List Layer)
    (hp : layers.Perm (baseLayers r)) :
    (repair layers).Perm layers ∧ (repair layers).getLast? ≠ some Layer.l3 ∧
      ∀ x, (repair layers).count x = r := by
  by_cases h : layers.getLast? = some Layer.l3
  · have hrep : repair layers = repairGo layers := by
      simp [repair, h]
    have hperm := repairGo_perm layers h
    have hcount1 : layers.count Layer.l1 = r := by
      rw [hp.count_eq, count_baseLayers]
    have hmem : Layer.l1 ∈ layers := by
      have hpos : 0 < layers.count Layer.l1 := by omega
      exact List.count_pos_iff.mp hpos
    have hlast := repairGo_getLast_ne layers h ⟨Layer.l1, hmem, by decide⟩
    refine ⟨hrep ▸ hperm, hrep ▸ hlast, ?_⟩
    intro x
    rw [hrep, (hperm.trans hp).count_eq, count_baseLayers]
  · have hrep : repair layers = layers := by
      simp [repair, h]
    refine ⟨?_, ?_, ?_⟩
    · rw [hrep]
    · rw [hrep]
      exact h
    · intro x
      rw [hrep, hp.count_eq, count_baseLayers]

/-- Witness for repair_sequence_valid: recursion count 1 with the shuffle
that places layer 3 last. -/
theorem repair_sequence_valid_witness :
    1 ≤ 1 ∧ ([Layer.l1, Layer.l2, Layer.l4, Layer.l3] : List Layer).Perm (baseLayers 1) ∧
      ((repair [Layer.l1, Layer.l2, Layer.l4, Layer.l3]).Perm
          [Layer.l1, Layer.l2, Layer.l4, Layer.l3] ∧
        (repair [Layer.l1, Layer.l2, Layer.l4, Layer.l3]).getLast? ≠ some Layer.l3 ∧
        ∀ x, (repair [Layer.l1, Layer.l2, Layer.l4, Layer.l3]).count x = 1) :=
  ⟨by decide, by decide,
    repair_sequence_valid 1 (by decide) [Layer.l1, Layer.l2, Layer.l4, Layer.l3] (by decide)⟩

/-- C8: if a run whose layer sequence contains the compiled-form transform
returns output at all, then the self-check of that transform passed on the
text it was given: the embedded literal decoded back to a value of the
compiled-object kind.  Equivalently, when the self-check fails the run
aborts with an error before producing any output. -/
theorem layer4_selfcheck_guards_output (enc : String → Option String)
    (chk : String → Bool) (ls1 ls2 : List (String → Except String String))
    (code out : String)
    (h : runLayers (ls1 ++ layer4Run enc chk :: ls2) code = Except.ok out) :
    ∃ mid encoded, runLayers ls1 code = Except.ok mid ∧ enc mid = some encoded ∧
      chk encoded = true ∧ runLayers ls2 (layer4Template encoded) = Except.ok out := by
  induction ls1 generalizing code with
  | nil =>
    rw [List.nil_append] at h
    cases henc : enc code with
    | none =>
      rw [show runLayers (layer4Run enc chk :: ls2) code
            = Except.error "Error during obfuscation in layer 4" by
          simp [runLayers, layer4Run, henc]] at h
      cases h
    | some e =>
      cases hchk : chk e with
      | false =>
        rw [show runLayers (layer4Run enc chk :: ls2) code
              = Except.error "Validation failed for layer 4" by
            simp [runLayers, layer4Run, henc, hchk]] at h
        cases h
      | true =>
        refine ⟨code, e, rfl, henc, hchk, ?_⟩
        rw [show runLayers (layer4Run enc chk :: ls2) code
              = runLayers ls2 (layer4Template e) by
            simp [runLayers, layer4Run, henc, hchk]] at h
        exact h
  | cons f fs ih =>
    rw [List.cons_append] at h
    cases hf : f code with
    | ok next =>
      have h2 : runLayers (fs ++ layer4Run enc chk :: ls2) next = Except.ok out := by
        rw [show runLayers (f :: (fs ++ layer4Run enc chk :: ls2)) code
              = runLayers (fs ++ layer4Run enc chk :: ls2) next by
            simp [runLayers, hf]] at h
        exact h
      obtain ⟨mid, e, h1, henc, hchk, hrest⟩ := ih next h2
      refine ⟨mid, e, ?_, henc, hchk, hrest⟩
      simp [runLayers, hf, h1]
    | error msg =>
      rw [show runLayers (f :: (fs ++ layer4Run enc chk :: ls2)) code
            = Except.error msg by simp [runLayers, hf]] at h
      cases h

/-- Witness for layer4_selfcheck_guards_output: a one-layer run with an
identity codec and a passing check. -/
theorem layer4_selfcheck_guards_output_witness :
    runLayers ([] ++ layer4Run (fun s => some s) (fun _ => true) :: []) "x = 1"
        = Except.ok (layer4Template "x = 1") ∧
      ∃ mid encoded, runLayers [] "x = 1" = Except.ok mid ∧
        (fun s => some s) mid = some encoded ∧ (fun _ : String => true) encoded = true ∧
        runLayers [] (layer4Template encoded) = Except.ok (layer4Template "x = 1") :=
  ⟨rfl, layer4_selfcheck_guards_output (fun s => some s) (fun _ => true) [] []
    "x = 1" (layer4Template "x = 1") rfl⟩

/-- Canonical form of the double sentinel insertion of _layer_2 when the
first position lies strictly before the second and both are in range. -/
theorem pyInsert_pyInsert_eq (E : List Nat) (inByte reByte inLoc reLoc : Nat)
    (hlt : inLoc < reLoc) (hre : reLoc ≤ E.length) :
    pyInsert reLoc reByte (pyInsert inLoc inByte E)
      = (E.take inLoc ++ inByte :: (E.drop inLoc).take (reLoc - inLoc - 1))
        ++ reByte :: (E.drop inLoc).drop (reLoc - inLoc - 1) := by
  have hin : inLoc ≤ E.length := by omega
  have hlen1 : (E.take inLoc).length = inLoc := by
    simp [List.length_take]
    omega
  have hsub : reLoc - inLoc = (reLoc - inLoc - 1) + 1 := by omega
  unfold pyInsert
  rw [List.take_append_eq_append_take, List.drop_append_eq_append_drop, hlen1, hsub,
    List.take_succ_cons, List.drop_succ_cons, List.take_take,
    List.drop_eq_nil_of_le (by omega : (E.take inLoc).length ≤ reLoc)]
  have hmin : reLoc ⊓ inLoc = inLoc := by omega
  rw [hmin]
  simp

/-- XOR with a fixed left operand is injective on Nat. -/
theorem xor_left_cancel (a b c : Nat) (h : a ^^^ b = a ^^^ c) : b = c := by
  have h2 := congrArg (fun x => a ^^^ x) h
  simpa [← Nat.xor_assoc, Nat.xor_self, Nat.zero_xor] using h2

/-- find? with an equality test returns the sought element whenever it is
in the list. -/
theorem find_self_of_mem (l : List Nat) (k : Nat) (hk : k ∈ l) :
    l.find? (fun i => i == k) = some k := by
  induction l with
  | nil => simp at hk
  | cons a as ih =>
    rcases eq_or_ne a k with h | h
    · subst h
      simp [List.find?_cons]
    · have hmem : k ∈ as := by
        rcases List.mem_cons.mp hk with h2 | h2
        · exact absurd h2.symm h
        · exact h2
      simp [List.find?_cons, h, ih hmem]

/-- With distinct in-range sentinel positions, the encoded byte list of
_layer_2 carries the first sentinel byte at in_loc and the second sentinel
byte (first XOR key) at re_loc. -/
theorem layer2Encode_getD (key inByte inLoc reLoc : Nat) (payload : List Nat)
    (hlt : inLoc < reLoc) (hre : reLoc ≤ payload.length) :
    (layer2Encode key inByte inLoc reLoc payload).getD inLoc 0 = inByte ∧
      (layer2Encode key inByte inLoc reLoc payload).getD reLoc 0 = inByte ^^^ key := by
  set E := payload.map (fun x => key ^^^ x) with hE
  have hEn : E.length = payload.length := by simp [hE]
  have henc : layer2Encode key inByte inLoc reLoc payload
      = (E.take inLoc ++ inByte :: (E.drop inLoc).take (reLoc - inLoc - 1))
        ++ (inByte ^^^ key) :: (E.drop inLoc).drop (reLoc - inLoc - 1) :=
    pyInsert_pyInsert_eq E inByte (inByte ^^^ key) inLoc reLoc hlt (by omega)
  have hlenL1 : (E.take inLoc).length = inLoc := by
    simp [List.length_take]
    omega
  have hlenL : (E.take inLoc ++ inByte :: (E.drop inLoc).take (reLoc - inLoc - 1)).length
      = reLoc := by
    simp [List.length_take, List.length_drop]
    omega
  constructor
  · rw [henc, List.getD_append _ _ _ _ (by omega : inLoc < _),
      List.getD_append_right _ _ _ _ (by omega : (E.take inLoc).length ≤ inLoc),
      hlenL1, Nat.sub_self, List.getD_cons_zero]
  · rw [henc, List.getD_append_right _ _ _ _ (by omega : _ ≤ reLoc), hlenL,
      Nat.sub_self, List.getD_cons_zero]

/-- With distinct in-range sentinel positions, the strip expression of the
generated loader removes exactly the two sentinel bytes, recovering the
XOR-encrypted payload. -/
theorem layer2Strip_encode (key inByte inLoc reLoc : Nat) (payload : List Nat)
    (hlt : inLoc < reLoc) (hre : reLoc ≤ payload.length) :
    layer2Strip (layer2Encode key inByte inLoc reLoc payload) inLoc reLoc
      = payload.map (fun x => key ^^^ x) := by
  set E := payload.map (fun x => key ^^^ x) with hE
  have hEn : E.length = payload.length := by simp [hE]
  have henc : layer2Encode key inByte inLoc reLoc payload
      = (E.take inLoc ++ inByte :: (E.drop inLoc).take (reLoc - inLoc - 1))
        ++ (inByte ^^^ key) :: (E.drop inLoc).drop (reLoc - inLoc - 1) :=
    pyInsert_pyInsert_eq E inByte (inByte ^^^ key) inLoc reLoc hlt (by omega)
  have hlenL1 : (E.take inLoc).length = inLoc := by
    simp [List.length_take]
    omega
  have hlenL : (E.take inLoc ++ inByte :: (E.drop inLoc).take (reLoc - inLoc - 1)).length
      = reLoc := by
    simp [List.length_take, List.length_drop]
    omega
  have h1 : ((E.take inLoc ++ inByte :: (E.drop inLoc).take (reLoc - inLoc - 1))
        ++ (inByte ^^^ key) :: (E.drop inLoc).drop (reLoc - inLoc - 1)).take inLoc
      = E.take inLoc := by
    rw [List.take_append_of_le_length (by omega), List.take_append_of_le_length (by omega),
      List.take_take, show inLoc ⊓ inLoc = inLoc from by omega]
  have h2 : (((E.take inLoc ++ inByte :: (E.drop inLoc).take (reLoc - inLoc - 1))
        ++ (inByte ^^^ key) :: (E.drop inLoc).drop (reLoc - inLoc - 1)).take reLoc).drop
          (inLoc + 1)
      = (E.drop inLoc).take (reLoc - inLoc - 1) := by
    rw [List.take_append_of_le_length (by omega), List.take_of_length_le (by omega),
      List.drop_append_eq_append_drop, hlenL1,
      List.drop_eq_nil_of_le (by omega : (E.take inLoc).length ≤ inLoc + 1),
      show inLoc + 1 - inLoc = 1 from by omega, List.drop_succ_cons, List.drop_zero,
      List.nil_append]
  have h3 : ((E.take inLoc ++ inByte :: (E.drop inLoc).take (reLoc - inLoc - 1))
        ++ (inByte ^^^ key) :: (E.drop inLoc).drop (reLoc - inLoc - 1)).drop (reLoc + 1)
      = (E.drop inLoc).drop (reLoc - inLoc - 1) := by
    rw [List.drop_append_eq_append_drop, List.drop_eq_nil_of_le (by omega), hlenL,
      show reLoc + 1 - reLoc = 1 from by omega, List.drop_succ_cons, List.drop_zero,
      List.nil_append]
  unfold layer2Strip
  rw [henc, h1, h2, h3, List.append_assoc, List.take_append_drop, List.take_append_drop]

/-- When the drawn key lies in 1..99 (so the loop of the loader can reach
it) and the sentinel positions are distinct and in range, the brute-force
loop finds exactly the true key: the sentinel equality is injective in the
candidate because XOR is cancellative. -/
theorem layer2FindKey_encode (key inByte inLoc reLoc : Nat) (payload : List Nat)
    (hk1 : 1 ≤ key) (hk2 : key ≤ 99) (hlt : inLoc < reLoc) (hre : reLoc ≤ payload.length) :
    layer2FindKey (layer2Encode key inByte inLoc reLoc payload) inLoc reLoc = some key := by
  obtain ⟨hg1, hg2⟩ := layer2Encode_getD key inByte inLoc reLoc payload hlt hre
  unfold layer2FindKey
  have hpred : (fun i => (layer2Encode key inByte inLoc reLoc payload).getD inLoc 0 ^^^ i
      == (layer2Encode key inByte inLoc reLoc payload).getD reLoc 0) = (fun i => i == key) := by
    funext i
    rw [hg1, hg2]
    rcases eq_or_ne i key with h | h
    · subst h
      simp
    · have hne : inByte ^^^ i ≠ inByte ^^^ key := fun hcon => h (xor_left_cancel _ _ _ hcon)
      rw [beq_eq_false_iff_ne.mpr hne, beq_eq_false_iff_ne.mpr h]
  rw [hpred]
  exact find_self_of_mem _ key (List.mem_range'_1.mpr ⟨hk1, by omega⟩)

/-- Good-case round trip of the key-discovery layer: for a key that the
loop can reach (1..99) and distinct in-range sentinel positions, the
generated loader recovers exactly the compressed payload that was encoded.
Together with the two failure evaluations above, this locates the defect of
_layer_2 precisely in the edge cases key = 100 and in_loc = re_loc. -/
theorem layer2_roundtrip (key inByte inLoc reLoc : Nat) (payload : List Nat)
    (hk1 : 1 ≤ key) (hk2 : key ≤ 99) (hlt : inLoc < reLoc) (hre : reLoc ≤ payload.length) :
    layer2Decode (layer2Encode key inByte inLoc reLoc payload) inLoc reLoc = some payload := by
  have hcomp : ((fun x => x ^^^ key) ∘ fun x => key ^^^ x) = id := by
    funext x
    simp [Function.comp, Nat.xor_comm key x, Nat.xor_assoc, Nat.xor_self, Nat.xor_zero]
  unfold layer2Decode
  rw [layer2FindKey_encode key inByte inLoc reLoc payload hk1 hk2 hlt hre,
    layer2Strip_encode key inByte inLoc reLoc payload hlt hre]
  show some (List.map (fun x => x ^^^ key) (List.map (fun x => key ^^^ x) payload))
      = some payload
  rw [List.map_map, hcomp, List.map_id]
